import Mathlib

/-!
Verification development for the OpenVax backend server (`server.js` and the
admin tools).  The definitions below are a shallow embedding of the server's
core logic: the one-time-passcode issuance/verification endpoints
(`/send-otp`, `/verify-otp`), the forced password change endpoint
(`/api/force-password-change`), the signed email-change token codec
(`createEmailChangeToken` / `verifyEmailChangeToken`), the identity
reconciliation logic (`ensureUser` / `/admin/ensure-auth-user`), the name
parsing block of `/admin/create-admin`, and the archive cascade of
`/admin/archive-admin`.

External collaborators are modelled explicitly:
* Firebase Auth is a list of user records plus a fresh-uid counter;
* Firestore collections are association lists keyed by document id;
* the HMAC, base64url and JSON primitives used by the token codec are
  parameters of the codec (a `Prims` record), since they are library calls;
* `Math.random()*900000` is modelled by its floor, a natural number below
  900000, passed in as an explicit randomness argument;
* `Date.now()` is an explicit `now : Nat` argument (milliseconds);
* mail transport success is an explicit boolean argument.
-/

/-! ## Generic list-of-characters utilities (JS string operations) -/

/-- Splitting a character list at every occurrence of a separator character,
mirroring JS `String.prototype.split` with a single-character separator:
`"".split(".") = [""]`, `"a.".split(".") = ["a",""]`. -/
def splitOnChar (sep : Char) : List Char → List (List Char)
  | [] => [[]]
  | c :: cs =>
    if c = sep then [] :: splitOnChar sep cs
    else
      match splitOnChar sep cs with
      | [] => [[c]]
      | y :: ys => (c :: y) :: ys

/-- Splitting at every character satisfying a predicate (used to model the JS
`split(/\s+/)` after the empty components are filtered out). -/
def splitByPred (p : Char → Bool) : List Char → List (List Char)
  | [] => [[]]
  | c :: cs =>
    if p c then [] :: splitByPred p cs
    else
      match splitByPred p cs with
      | [] => [[c]]
      | y :: ys => (c :: y) :: ys

/-- JS `String.prototype.trim` on the underlying character list. -/
def trimData (l : List Char) : List Char :=
  ((l.dropWhile Char.isWhitespace).reverse.dropWhile Char.isWhitespace).reverse

/-- JS `String.prototype.trim`. -/
def jsTrim (s : String) : String := String.mk (trimData s.data)

/-- JS `array.join(" ")` for a list of strings. -/
def joinSpace : List String → String
  | [] => ""
  | [x] => x
  | x :: xs => x ++ " " ++ joinSpace xs

/-- JS `s.split(/\s+/).filter(Boolean)` : whitespace-separated tokens. -/
def splitWs (s : String) : List String :=
  ((splitByPred Char.isWhitespace s.data).filter (· ≠ [])).map String.mk

/-! ## Decimal rendering of numbers (JS `Number.prototype.toString`) -/

/-- The character of a decimal digit. -/
def decDigit (n : Nat) : Char := Char.ofNat (48 + n % 10)

/-- Fuel-indexed accumulator loop producing the decimal digits of `n` in
front of `acc`.  The fuel is a structural-recursion device only; `natToDec`
always supplies enough of it. -/
def toDecAux : Nat → Nat → List Char → List Char
  | 0, _, acc => acc
  | fuel + 1, n, acc =>
    if n < 10 then decDigit n :: acc
    else toDecAux fuel (n / 10) (decDigit (n % 10) :: acc)

/-- Decimal rendering of a natural number, as JS `(n).toString()` renders a
nonnegative integer. -/
def natToDec (n : Nat) : String := String.mk (toDecAux (n + 1) n [])

/-! ## Firestore document stores -/

/-- Reading a document from a collection (`collection(c).doc(k).get()`). -/
def fsGet {α : Type} (l : List (String × α)) (k : String) : Option α :=
  (l.find? (fun p => p.1 == k)).map (·.2)

/-- Writing a document (`doc(k).set(v)` without merge): overwrite in place,
or append a new document when the key is absent. -/
def fsSet {α : Type} (l : List (String × α)) (k : String) (v : α) :
    List (String × α) :=
  if l.any (fun p => p.1 == k) then
    l.map (fun p => if p.1 == k then (k, v) else p)
  else l ++ [(k, v)]

/-- Deleting a document (`doc(k).delete()`). -/
def fsDelete {α : Type} (l : List (String × α)) (k : String) :
    List (String × α) :=
  l.filter (fun p => !(p.1 == k))

/-! ## encodeURIComponent -/

/-- UTF-8 bytes of a code point, used by `encodeURIComponent` for characters
outside the unreserved set. -/
def utf8Bytes (n : Nat) : List Nat :=
  if n < 0x80 then [n]
  else if n < 0x800 then [0xC0 + n / 64, 0x80 + n % 64]
  else if n < 0x10000 then
    [0xE0 + n / 4096, 0x80 + (n / 64) % 64, 0x80 + n % 64]
  else
    [0xF0 + n / 262144, 0x80 + (n / 4096) % 64, 0x80 + (n / 64) % 64,
      0x80 + n % 64]

/-- Uppercase hexadecimal digit. -/
def hexDigit (n : Nat) : Char :=
  if n < 10 then Char.ofNat (48 + n) else Char.ofNat (55 + n)

/-- Percent-encoding of one byte. -/
def pctByte (b : Nat) : List Char := ['%', hexDigit (b / 16), hexDigit (b % 16)]

/-- The characters `encodeURIComponent` leaves unescaped:
`A-Z a-z 0-9 - _ . ! ~ * ' ( )`. -/
def uriUnreserved (c : Char) : Bool :=
  c.isAlphanum || c = '-' || c = '_' || c = '.' || c = '!' || c = '~' ||
    c = '*' || c = Char.ofNat 39 || c = '(' || c = ')'

/-- Encoding of a single character under `encodeURIComponent`. -/
def encChar (c : Char) : List Char :=
  if uriUnreserved c then [c] else ((utf8Bytes c.toNat).map pctByte).flatten

/-- JS `encodeURIComponent`, used by the server to derive the Firestore
document key for an email (`const emailKey = encodeURIComponent(email)`). -/
def encodeURIComponent (s : String) : String :=
  String.mk ((s.data.map encChar).flatten)

/-! ## Firebase Auth model -/

/-- One identity-provider account. -/
structure AuthUser where
  uid : String
  email : String
  password : String
  emailVerified : Bool
  disabled : Bool
deriving DecidableEq, Repr

/-- The identity provider: its accounts plus a counter used to mint fresh
uids for newly created accounts. -/
structure AuthState where
  users : List AuthUser
  nextUid : Nat
deriving DecidableEq, Repr

/-- `admin.auth().getUserByEmail(email)` (`none` models the thrown
`auth/user-not-found`). -/
def authGetUserByEmail (a : AuthState) (email : String) : Option AuthUser :=
  a.users.find? (fun u => u.email == email)

/-- `admin.auth().getUser(uid)`. -/
def authGetUser (a : AuthState) (uid : String) : Option AuthUser :=
  a.users.find? (fun u => u.uid == uid)

/-- `admin.auth().updateUser(uid, { password })`. -/
def authUpdatePassword (a : AuthState) (uid password : String) : AuthState :=
  { a with
    users := a.users.map fun u =>
      if u.uid == uid then { u with password := password } else u }

/-- `admin.auth().updateUser(uid, { password, emailVerified, disabled })`. -/
def authUpdateUser (a : AuthState) (uid password : String) (ev dis : Bool) :
    AuthState :=
  { a with
    users := a.users.map fun u =>
      if u.uid == uid then
        { u with password := password, emailVerified := ev, disabled := dis }
      else u }

/-- `admin.auth().updateUser(uid, { disabled })`. -/
def authSetDisabled (a : AuthState) (uid : String) (d : Bool) : AuthState :=
  { a with
    users := a.users.map fun u =>
      if u.uid == uid then { u with disabled := d } else u }

/-- Failure modes of `admin.auth().createUser` that the server handles. -/
inductive AuthErr where
  | alreadyExists
deriving DecidableEq, Repr

/-- `admin.auth().createUser({email, password, emailVerified, disabled})`:
fails with `auth/email-already-exists` when some account has the email,
otherwise mints a fresh uid and appends the account. -/
def authCreateUser (a : AuthState) (email password : String) (ev dis : Bool) :
    Except AuthErr (String × AuthState) :=
  if a.users.any (fun u => u.email == email) then .error .alreadyExists
  else
    let uid := "u" ++ natToDec a.nextUid
    .ok (uid,
      { users := a.users ++ [⟨uid, email, password, ev, dis⟩],
        nextUid := a.nextUid + 1 })

/-! ## One-time passcode endpoints (`/send-otp`, `/verify-otp`) -/

/-- A stored OTP document in the `otps` collection:
`{ otp, createdAt, expiresAt }`. -/
structure OtpRec where
  otp : String
  createdAt : Nat
  expiresAt : Nat
deriving DecidableEq, Repr

/-- Server state shared by the passcode endpoints and the forced password
change: the identity provider and the `otps` Firestore collection. -/
structure ServerState where
  auth : AuthState
  otps : List (String × OtpRec)
deriving DecidableEq, Repr

/-- The generated passcode: `Math.floor(100000 + Math.random() * 900000)
.toString()`, where `k = Math.floor(Math.random() * 900000)` (so issuance
draws `k` uniformly from `0 .. 899999`). -/
def genOtp (k : Nat) : String := natToDec (100000 + k)

/-- Responses of `/send-otp` that the model distinguishes. -/
inductive SendOtpResult where
  | missingEmail
  | mailNotConfigured
  | ok
deriving DecidableEq, Repr

/-- The `/send-otp` handler.  `k` is the randomness draw (see `genOtp`),
`now` is `Date.now()`, `mailOk` tells whether the transporter exists and
`sendMail` succeeds.  Effects in source order: best-effort password sync to
the OTP for an existing auth user, then the upsert
`otps.doc(encodeURIComponent(email)).set({otp, createdAt, expiresAt})`
(which happens before any mail transport failure can be detected). -/
def sendOtp (st : ServerState) (email : String) (k now : Nat)
    (mailOk : Bool) : SendOtpResult × ServerState :=
  if email = "" then (.missingEmail, st)
  else
    let otp := genOtp k
    let auth' :=
      match authGetUserByEmail st.auth email with
      | some u => authUpdatePassword st.auth u.uid otp
      | none => st.auth
    let emailKey := encodeURIComponent email
    let otps' := fsSet st.otps emailKey ⟨otp, now, now + 5 * 60 * 1000⟩
    let st' : ServerState := ⟨auth', otps'⟩
    if mailOk then (.ok, st') else (.mailNotConfigured, st')

/-- Responses of `/verify-otp`. -/
inductive VerifyOtpResult where
  | missingFields
  | notFound
  | expired
  | mismatch
  | ok
deriving DecidableEq, Repr

/-- The `/verify-otp` handler.  Reads the document at
`encodeURIComponent(email)`; missing document is "No OTP found"; an expired
document (`data.expiresAt && Date.now() > data.expiresAt`) is deleted and
reported expired; a matching code deletes the document (consume-once); a
non-matching code leaves the document in place. -/
def verifyOtp (otps : List (String × OtpRec)) (email otp : String)
    (now : Nat) : VerifyOtpResult × List (String × OtpRec) :=
  if email = "" ∨ otp = "" then (.missingFields, otps)
  else
    let emailKey := encodeURIComponent email
    match fsGet otps emailKey with
    | none => (.notFound, otps)
    | some r =>
      if r.expiresAt ≠ 0 ∧ now > r.expiresAt then (.expired, fsDelete otps emailKey)
      else if r.otp = otp then (.ok, fsDelete otps emailKey)
      else (.mismatch, otps)

/-! ## `/api/force-password-change` -/

/-- Responses of `/api/force-password-change`. -/
inductive ForcePwResult where
  | missingFields
  | userNotFound
  | ok
deriving DecidableEq, Repr

/-- The `/api/force-password-change` handler: requires both fields, looks the
user up by email in the identity provider only, and sets the account password
to the supplied code.  The `otps` collection is never touched. -/
def forcePasswordChange (st : ServerState) (email otp : String) :
    ForcePwResult × ServerState :=
  if email = "" ∨ otp = "" then (.missingFields, st)
  else
    match authGetUserByEmail st.auth email with
    | none => (.userNotFound, st)
    | some u => (.ok, ⟨authUpdatePassword st.auth u.uid otp, st.otps⟩)

/-! ## Name parsing in `/admin/create-admin` -/

/-- The name-normalisation block of `/admin/create-admin` (the `provided` /
`parsed` logic): returns `(lastName, firstName, middleName)`.  A comma splits
into `last, rest` with rest's first token the first name and the remaining
tokens the middle name; without a comma the last whitespace token is the last
name, the first token the first name, and the interior tokens joined form the
middle name.  Any explicitly provided part overrides the parsed value. -/
def parseNameParts (lastName firstName middleName fullName : String) :
    String × String × String :=
  let pLast := jsTrim lastName
  let pFirst := jsTrim firstName
  let pMiddle := jsTrim middleName
  if (pLast = "" ∨ pFirst = "") ∧ jsTrim fullName ≠ "" then
    let f := jsTrim fullName
    if f.data.contains ',' then
      let comps := (splitOnChar ',' f.data).map (fun l => jsTrim (String.mk l))
      let ln := comps.getD 0 ""
      let restRaw := comps.getD 1 ""
      let rest := splitWs restRaw
      (if pLast = "" then ln else pLast,
       if pFirst = "" then rest.getD 0 "" else pFirst,
       if pMiddle = "" then joinSpace (rest.drop 1) else pMiddle)
    else
      let parts := splitWs f
      let ln := if parts.length ≠ 0 then parts.getD (parts.length - 1) "" else ""
      let fn := if parts.length ≠ 0 then parts.getD 0 "" else ""
      let mn := if parts.length > 2 then joinSpace ((parts.drop 1).dropLast) else ""
      (if pLast = "" then ln else pLast,
       if pFirst = "" then fn else pFirst,
       if pMiddle = "" then mn else pMiddle)
  else (pLast, pFirst, pMiddle)

/-! ## Signed email-change token codec -/

/-- JSON values that appear in email-change token bodies. -/
inductive JVal where
  | jstr (v : String)
  | jnum (v : Nat)
deriving DecidableEq, Repr

/-- A JSON object: ordered association list of fields, as JS objects are. -/
def JObj : Type := List (String × JVal)

instance : DecidableEq JObj := by
  unfold JObj
  infer_instance

/-- JS object update `{...o, k: v}`: replace the field in place when the key
exists, otherwise append it. -/
def setKey (o : JObj) (k : String) (v : JVal) : JObj := fsSet o k v

/-- Field lookup `o[k]`. -/
def lookupKey (o : JObj) (k : String) : Option JVal := fsGet o k

/-- The token body object `{ ...payload, iat: issuedAt, exp: expiresAt }`. -/
def mkBody (payload : JObj) (iat exp : Nat) : JObj :=
  setKey (setKey payload "iat" (.jnum iat)) "exp" (.jnum exp)

/-- The library primitives the token codec calls.  They are external
collaborators (Node `crypto`, `Buffer`, `JSON`), so the codec is modelled as
a function of them: `hmacHex secret message` is
`crypto.createHmac("sha256", secret).update(message).digest("hex")`,
`b64encode` / `b64decode` are `Buffer` base64url conversion (decoding
returns `none` when it fails), and `jsonStringify` / `jsonParse` are
`JSON.stringify` / `JSON.parse` (`none` models a thrown parse error). -/
structure Prims where
  hmacHex : String → String → String
  b64encode : String → String
  b64decode : String → Option String
  jsonStringify : JObj → String
  jsonParse : String → Option JObj

/-- `createEmailChangeToken(payload, secret, ttlMs)` at time `now`:
serialises `{...payload, iat: now, exp: now + ttl}`, signs it, and returns
`base64url(body) + "." + hex(signature)`. -/
def createTok (pr : Prims) (payload : JObj) (secret : String)
    (ttl now : Nat) : String :=
  let body := pr.jsonStringify (mkBody payload now (now + ttl))
  pr.b64encode body ++ "." ++ pr.hmacHex secret body

/-- `Number(data.exp || 0)` for the parsed body: a missing, zero or
empty-string field counts as `0`; a digit string is its value; any other
string is NaN (`none`). -/
def expNumber (data : JObj) : Option Nat :=
  match lookupKey data "exp" with
  | none => some 0
  | some (.jnum k) => some k
  | some (.jstr s) =>
    if s = "" then some 0
    else if s.data ≠ [] ∧ s.data.all Char.isDigit then
      some (s.data.foldl (fun a c => a * 10 + (c.toNat - 48)) 0)
    else none

/-- `verifyEmailChangeToken(token, secret)` at time `now`.  Mirrors the
source: reject when the token has no `"."`; split on `"."` and take the
first two components; base64url-decode the body (failure is caught and
yields `null`); recompute the HMAC over the decoded body and compare with
the signature component; parse the JSON (failure caught); reject when
`Date.now() > Number(data.exp || 0)` (a NaN comparison is false, so the
check passes); otherwise return the parsed body. -/
def verifyTok (pr : Prims) (token secret : String) (now : Nat) :
    Option JObj :=
  if token.data.contains '.' then
    let parts := splitOnChar '.' token.data
    let bodyB64 := String.mk (parts.getD 0 [])
    let signature := String.mk (parts.getD 1 [])
    match pr.b64decode bodyB64 with
    | none => none
    | some bodyJson =>
      if pr.hmacHex secret bodyJson = signature then
        match pr.jsonParse bodyJson with
        | none => none
        | some data =>
          match expNumber data with
          | some m => if now > m then none else some data
          | none => some data
      else none
  else none

/-! ## Identity reconciliation (`ensureUser` in `tools/createUser.js`,
`/admin/ensure-auth-user`) -/

/-- The Firestore `users` document written by `ensureUser`:
`{ email, role, isEmailVerified }` (the server timestamp field is not
modelled). -/
structure RoleDoc where
  email : String
  role : String
  isEmailVerified : Bool
deriving DecidableEq, Repr

/-- State touched by identity reconciliation: the identity provider plus the
Firestore `users` collection. -/
structure IdState where
  auth : AuthState
  users : List (String × RoleDoc)
deriving DecidableEq, Repr

/-- Result of `ensureUser`: whether a fresh identity was created, and its
uid. -/
structure EnsureResult where
  created : Bool
  uid : String
deriving DecidableEq, Repr

/-- `ensureUser(email, password)` with the role captured from the CLI: try
`createUser`; on `auth/email-already-exists` recover the existing identity by
email, force-reset its credential and flags, and ensure the Firestore role
document; in both branches write `{email, role, isEmailVerified: true}`
(merge) at the uid.  The `.error` branch models the unreachable case where
recovery by email fails (the exception would propagate). -/
def ensureUser (st : IdState) (email password role : String) :
    Except String (EnsureResult × IdState) :=
  match authCreateUser st.auth email password true false with
  | .ok (uid, auth') =>
    .ok (⟨true, uid⟩,
      ⟨auth', fsSet st.users uid ⟨email, role, true⟩⟩)
  | .error .alreadyExists =>
    match authGetUserByEmail st.auth email with
    | some existing =>
      let auth' := authUpdateUser st.auth existing.uid password true false
      .ok (⟨false, existing.uid⟩,
        ⟨auth', fsSet st.users existing.uid ⟨email, role, true⟩⟩)
    | none => .error "auth/user-not-found"

/-! ## `/admin/archive-admin` -/

/-- A Firestore `users` document as the archive endpoint sees it (only the
fields it reads or writes; both can be absent on legacy documents). -/
structure ArchUserDoc where
  email : Option String
  isActive : Option Bool
deriving DecidableEq, Repr

/-- A `vaccineStock` document: `createdBy.email` (flattened), the archive
flag and the archive stamps. -/
structure VSDoc where
  createdByEmail : String
  isArchived : Bool
  archivedAt : Option Nat
  archivedBy : Option String
deriving DecidableEq, Repr

/-- State touched by `/admin/archive-admin`. -/
structure ArchiveState where
  auth : AuthState
  users : List (String × ArchUserDoc)
  vaccineStock : List (String × VSDoc)
deriving DecidableEq, Repr

/-- `users.doc(uid).set({ isActive }, { merge: true })`. -/
def archSetIsActive (l : List (String × ArchUserDoc)) (k : String)
    (b : Bool) : List (String × ArchUserDoc) :=
  match fsGet l k with
  | some d => fsSet l k { d with isActive := some b }
  | none => fsSet l k ⟨none, some b⟩

/-- The unarchive update applied to a matching `vaccineStock` document:
`isArchived: false` with `archivedAt` / `archivedBy` deleted. -/
def unarchiveDoc (d : VSDoc) : VSDoc :=
  { d with isArchived := false, archivedAt := none, archivedBy := none }

/-- The vaccine-stock cascade of `/admin/archive-admin`.  On the archive
side (`disable = true`) the update object evaluates `requesterEmail`, a name
that is not defined anywhere in `server.js`, so as soon as there is a
matching document the `forEach` body throws a `ReferenceError` before the
batch is committed; the unarchive side commits one atomic batch clearing the
archive state of every matching document. -/
def runCascade (stock : List (String × VSDoc)) (email : String)
    (disable : Bool) : Except String (List (String × VSDoc)) :=
  let matching := stock.filter (fun p => p.2.createdByEmail == email)
  if matching.isEmpty then .ok stock
  else if disable then .error "ReferenceError: requesterEmail is not defined"
  else .ok (stock.map fun p =>
    if p.2.createdByEmail == email then (p.1, unarchiveDoc p.2) else p)

/-- Response of `/admin/archive-admin`. -/
inductive ArchiveResult where
  | missingFields
  | ok
deriving DecidableEq, Repr

/-- The `/admin/archive-admin` handler (after the admin role check): disable
or enable the auth user (best effort, with a fallback lookup through the
Firestore email; any failure is swallowed), read the stored email, merge
`isActive = !disable` into the user document, then run the vaccine-stock
cascade, whose errors are swallowed by `catch (vsError)` so the request
still reports success. -/
def archiveAdmin (st : ArchiveState) (uid : String) (disable : Bool) :
    ArchiveResult × ArchiveState :=
  if uid = "" then (.missingFields, st)
  else
    let auth1 :=
      match authGetUser st.auth uid with
      | some _ => authSetDisabled st.auth uid disable
      | none =>
        match fsGet st.users uid with
        | some d =>
          match d.email with
          | some em =>
            match authGetUserByEmail st.auth em with
            | some u => authSetDisabled st.auth u.uid disable
            | none => st.auth
          | none => st.auth
        | none => st.auth
    let userEmail := (fsGet st.users uid).bind (·.email)
    let users' := archSetIsActive st.users uid (!disable)
    let stock' :=
      match userEmail with
      | some em =>
        match runCascade st.vaccineStock em disable with
        | .ok s => s
        | .error _ => st.vaccineStock
      | none => st.vaccineStock
    (.ok, ⟨auth1, users', stock'⟩)

/-! ## Store lemmas -/

theorem find?_replace_ne {α : Type} (ps : List (String × α)) (k k' : String)
    (v : α) (hne : k' ≠ k) :
    (ps.map (fun q => if q.1 == k then (k, v) else q)).find?
        (fun q => q.1 == k') =
      ps.find? (fun q => q.1 == k') := by
  induction ps with
  | nil => rfl
  | cons p ps ih =>
    rw [List.map_cons]
    by_cases hp : p.1 == k
    · have hpk : p.1 = k := by simpa using hp
      have h2 : (p.1 == k') = false := by
        rw [hpk]
        simpa using (Ne.symm hne)
      have hkv : ((k, v).1 == k') = false := by simpa using (Ne.symm hne)
      rw [if_pos hp]
      simp only [List.find?_cons, hkv, h2]
      exact ih
    · by_cases hp' : p.1 == k'
      · rw [if_neg hp]
        simp only [List.find?_cons, hp']
      · rw [if_neg hp]
        simp only [List.find?_cons, hp']
        exact ih

theorem find?_replace_self {α : Type} (ps : List (String × α)) (k : String)
    (v : α) (h : ps.any (fun q => q.1 == k)) :
    (ps.map (fun q => if q.1 == k then (k, v) else q)).find?
        (fun q => q.1 == k) = some (k, v) := by
  induction ps with
  | nil => simp at h
  | cons p ps ih =>
    rw [List.map_cons]
    by_cases hp : p.1 == k
    · rw [if_pos hp]
      simp only [List.find?_cons, beq_self_eq_true]
    · rw [if_neg hp]
      have hp' : (p.1 == k) = false := by simpa using hp
      simp only [List.find?_cons, hp']
      exact ih (by simpa [hp'] using h)

theorem find?_none_of_any_false {α : Type} (l : List α) (p : α → Bool)
    (h : l.any p = false) : l.find? p = none := by
  rw [List.find?_eq_none]
  rw [List.any_eq_false] at h
  exact h

theorem fsGet_fsSet_self {α : Type} (l : List (String × α)) (k : String)
    (v : α) : fsGet (fsSet l k v) k = some v := by
  unfold fsGet fsSet
  by_cases h : l.any (fun p => p.1 == k)
  · rw [if_pos h, find?_replace_self l k v h]
    rfl
  · rw [if_neg h, List.find?_append,
      find?_none_of_any_false _ _ (by simp only [Bool.not_eq_true] at h; exact h)]
    simp [List.find?]

theorem fsGet_fsSet_ne {α : Type} (l : List (String × α)) (k k' : String)
    (v : α) (hne : k' ≠ k) : fsGet (fsSet l k v) k' = fsGet l k' := by
  unfold fsGet fsSet
  by_cases h : l.any (fun p => p.1 == k)
  · rw [if_pos h, find?_replace_ne l k k' v hne]
  · rw [if_neg h, List.find?_append]
    have h1 : (k == k') = false := by simpa using (Ne.symm hne)
    cases hf : l.find? (fun p => p.1 == k') with
    | none => simp [List.find?, h1]
    | some q => simp

theorem fsGet_fsDelete_self {α : Type} (l : List (String × α)) (k : String) :
    fsGet (fsDelete l k) k = none := by
  unfold fsGet fsDelete
  rw [find?_none_of_any_false]
  · rfl
  · rw [List.any_eq_false]
    intro p hp
    rw [List.mem_filter] at hp
    simpa using hp.2

/-! ## Decimal-rendering lemmas -/

theorem toDecAux_ne_nil_of_acc (fuel : Nat) :
    ∀ (n : Nat) (acc : List Char), acc ≠ [] → toDecAux fuel n acc ≠ [] := by
  induction fuel with
  | zero => intro n acc h; simpa [toDecAux] using h
  | succ fuel ih =>
    intro n acc h
    simp only [toDecAux]
    split
    · simp
    · exact ih _ _ (by simp)

theorem natToDec_ne_empty (n : Nat) : natToDec n ≠ "" := by
  unfold natToDec
  intro h
  have hl : toDecAux (n + 1) n [] = [] := by
    have := congrArg String.data h
    simpa using this
  simp only [toDecAux] at hl
  revert hl
  split
  · simp
  · exact toDecAux_ne_nil_of_acc _ _ _ (by simp)

theorem toDecAux_head_zero (fuel : Nat) :
    ∀ (n : Nat) (acc l : List Char), n < 10 ^ fuel →
      toDecAux fuel n acc = '0' :: l → n = 0 := by
  induction fuel with
  | zero =>
    intro n acc l hn _
    simpa using hn
  | succ fuel ih =>
    intro n acc l hn h
    simp only [toDecAux] at h
    split at h
    · have hd : decDigit n = '0' := (List.cons.injEq _ _ _ _ ▸ h).1
      rename_i hlt
      have hmod : n % 10 = n := Nat.mod_eq_of_lt hlt
      unfold decDigit at hd
      rw [hmod] at hd
      interval_cases n
      · rfl
      all_goals exact absurd hd (by decide)
    · rename_i hge
      have hdiv : n / 10 < 10 ^ fuel := by
        rw [Nat.div_lt_iff_lt_mul (by omega)]
        calc n < 10 ^ (fuel + 1) := hn
        _ = 10 ^ fuel * 10 := by rw [Nat.pow_succ]
      have := ih (n / 10) _ l hdiv h
      omega

theorem nat_lt_pow_succ (n : Nat) : n < 10 ^ (n + 1) :=
  lt_of_lt_of_le (Nat.lt_pow_self (by norm_num) n)
    (Nat.pow_le_pow_right (by norm_num) (by omega))

theorem toDecAux_length (fuel : Nat) :
    ∀ (n : Nat) (acc : List Char), n < 10 ^ (fuel + 1) →
      (toDecAux (fuel + 1) n acc).length = Nat.log 10 n + 1 + acc.length := by
  induction fuel with
  | zero =>
    intro n acc hn
    have hn10 : n < 10 := by simpa using hn
    rw [toDecAux, if_pos hn10]
    have : Nat.log 10 n = 0 := Nat.log_eq_zero_iff.mpr (Or.inl hn10)
    simp only [List.length_cons, this]
    omega
  | succ fuel ih =>
    intro n acc hn
    rw [toDecAux]
    split
    · rename_i hlt
      have : Nat.log 10 n = 0 := Nat.log_eq_zero_iff.mpr (Or.inl hlt)
      simp only [List.length_cons, this]
      omega
    · rename_i hge
      have hdiv : n / 10 < 10 ^ (fuel + 1) := by
        rw [Nat.div_lt_iff_lt_mul (by omega)]
        calc n < 10 ^ (fuel + 2) := hn
        _ = 10 ^ (fuel + 1) * 10 := by rw [Nat.pow_succ]
      rw [ih (n / 10) _ hdiv, Nat.log_div_base]
      have hpos : 0 < Nat.log 10 n :=
        Nat.log_pos (by norm_num) (by omega)
      simp only [List.length_cons]
      omega

theorem natToDec_length_six (n : Nat) (h1 : 100000 ≤ n) (h2 : n ≤ 999999) :
    (natToDec n).length = 6 := by
  unfold natToDec
  rw [String.length_mk]
  have hn : n < 10 ^ (n + 1) := nat_lt_pow_succ n
  rw [toDecAux_length n n [] hn]
  have hlog : Nat.log 10 n = 5 :=
    Nat.log_eq_of_pow_le_of_lt_pow (by norm_num [h1]) (by norm_num; omega)
  simp [hlog]

theorem genOtp_length (k : Nat) (hk : k < 900000) : (genOtp k).length = 6 :=
  natToDec_length_six _ (by omega) (by omega)

theorem genOtp_ne_empty (k : Nat) : genOtp k ≠ "" := natToDec_ne_empty _

/-- C5, counterexample: no draw of the generator
`Math.floor(100000 + Math.random() * 900000).toString()` ever produces the
code `"000000"`, so passcodes do not range over `"000000"`–`"999999"` and no
leading-zero code is ever issued. -/
theorem c5_counterexample : ¬ ∃ k : Nat, genOtp k = "000000" := by
  rintro ⟨k, hk⟩
  unfold genOtp natToDec at hk
  have hl : toDecAux (100000 + k + 1) (100000 + k) [] =
      '0' :: ['0', '0', '0', '0', '0'] := by
    have h2 := congrArg String.data hk
    simpa using h2
  have := toDecAux_head_zero (100000 + k + 1) (100000 + k) []
    ['0', '0', '0', '0', '0'] (nat_lt_pow_succ _) hl
  omega

/-- C5 (amended): every passcode issued by `/send-otp` is the decimal
rendering of `100000 + k` for the uniform draw `k < 900000` — a six-digit
numeric string in `"100000"`–`"999999"` with no leading zeros — and the
stored record carries `createdAt = now` and `expiresAt = now + 300000`
(five minutes). -/
theorem c5_theorem (st : ServerState) (email : String) (k now : Nat)
    (mailOk : Bool) (he : email ≠ "") (hk : k < 900000) :
    fsGet ((sendOtp st email k now mailOk).2.otps) (encodeURIComponent email) =
      some ⟨genOtp k, now, now + 300000⟩ ∧
    (genOtp k).length = 6 ∧
    genOtp k = natToDec (100000 + k) ∧ 100000 + k ≤ 999999 := by
  refine ⟨?_, genOtp_length k hk, rfl, by omega⟩
  unfold sendOtp
  rw [if_neg he]
  have harith : now + 5 * 60 * 1000 = now + 300000 := by norm_num
  cases mailOk
  · show fsGet (fsSet st.otps _ _) _ = _
    rw [fsGet_fsSet_self, harith]
  · show fsGet (fsSet st.otps _ _) _ = _
    rw [fsGet_fsSet_self, harith]

/-- Witness for C5 (amended) at a concrete issuance. -/
theorem c5_witness :
    ("a@x.com" : String) ≠ "" ∧ (0 : Nat) < 900000 ∧
      (fsGet ((sendOtp ⟨⟨[], 0⟩, []⟩ "a@x.com" 0 10 true).2.otps)
          (encodeURIComponent "a@x.com") =
        some ⟨genOtp 0, 10, 10 + 300000⟩ ∧
      (genOtp 0).length = 6 ∧
      genOtp 0 = natToDec (100000 + 0) ∧ 100000 + 0 ≤ 999999) :=
  ⟨by decide, by decide,
    c5_theorem ⟨⟨[], 0⟩, []⟩ "a@x.com" 0 10 true (by decide) (by decide)⟩

/-- C9, counterexample: on the comma-less full name `"Juan Dela Cruz"` the
create-admin name parser does not produce an empty middle name — the claimed
decomposition `{first: "Juan", middle: "", last: "Cruz"}` is wrong. -/
theorem c9_counterexample :
    parseNameParts "" "" "" "Juan Dela Cruz" ≠ ("Cruz", "Juan", "") := by
  decide

/-- C9 (amended): with no explicit parts, `"Juan Dela Cruz"` decomposes to
`{last: "Cruz", first: "Juan", middle: "Dela"}` (interior tokens join into
the middle name), and `"Dela Cruz, Juan Miguel"` decomposes to
`{last: "Dela Cruz", first: "Juan", middle: "Miguel"}`. -/
theorem c9_theorem :
    parseNameParts "" "" "" "Juan Dela Cruz" = ("Cruz", "Juan", "Dela") ∧
    parseNameParts "" "" "" "Dela Cruz, Juan Miguel" =
      ("Dela Cruz", "Juan", "Miguel") := by
  decide

/-- C3: a passcode verifies successfully at most once per issuance — if
`/verify-otp` answers OK (which deletes the stored record), then a second
verify for the same email and the same code, with no intervening issuance,
answers "No OTP found for this email". -/
theorem c3_theorem (otps : List (String × OtpRec)) (email otp : String)
    (now now' : Nat) (otps' : List (String × OtpRec))
    (h : verifyOtp otps email otp now = (.ok, otps')) :
    (verifyOtp otps' email otp now').1 = .notFound := by
  simp only [verifyOtp] at h
  split at h
  · simp at h
  · rename_i hcond
    split at h
    · simp at h
    · rename_i r hg
      split at h
      · simp at h
      · split at h
        · simp only [Prod.mk.injEq, true_and] at h
          simp only [verifyOtp]
          rw [if_neg hcond, ← h, fsGet_fsDelete_self]
        · simp at h

/-- Witness for C3: a concrete OK verification followed by NOT_FOUND. -/
theorem c3_witness : (verifyOtp [] "a@x.com" "123456" 60).1 =
    VerifyOtpResult.notFound :=
  c3_theorem [("a%40x.com", ⟨"123456", 0, 100⟩)] "a@x.com" "123456" 50 60 []
    (by decide)

theorem find?_uid_update (us : List AuthUser) (uid p : String)
    (h : (us.find? (fun u => u.uid == uid)).isSome) :
    ((us.map (fun u =>
        if u.uid == uid then { u with password := p } else u)).find?
          (fun u => u.uid == uid)).map (·.password) = some p := by
  induction us with
  | nil => simp at h
  | cons u us ih =>
    rw [List.map_cons]
    by_cases hu : u.uid == uid
    · rw [if_pos hu]
      have h2 : (({ u with password := p } : AuthUser).uid == uid) = true := by
        simpa using hu
      simp only [List.find?_cons, h2]
      rfl
    · rw [if_neg hu]
      have hu' : (u.uid == uid) = false := by simpa using hu
      simp only [List.find?_cons, hu'] at h ⊢
      exact ih h

theorem authGetUser_updatePassword (a : AuthState) (uid p : String)
    (h : (authGetUser a uid).isSome) :
    (authGetUser (authUpdatePassword a uid p) uid).map (·.password) =
      some p :=
  find?_uid_update a.users uid p h

/-- C2: for an email that resolves to an identity-provider account and a
non-empty code, `/api/force-password-change` reports success and sets that
identity's password to the supplied code, while the `otps` passcode store is
neither read nor written: the store is returned unchanged, and the handler's
answer and auth effect are the same whatever the passcode store contains. -/
theorem c2_theorem (st : ServerState) (email otp : String) (u : AuthUser)
    (he : email ≠ "") (ho : otp ≠ "")
    (hu : authGetUserByEmail st.auth email = some u) :
    (forcePasswordChange st email otp).1 = .ok ∧
    (forcePasswordChange st email otp).2.otps = st.otps ∧
    (authGetUser (forcePasswordChange st email otp).2.auth u.uid).map
        (·.password) = some otp ∧
    ∀ alt : List (String × OtpRec),
      forcePasswordChange ⟨st.auth, alt⟩ email otp =
        ((forcePasswordChange st email otp).1,
          ⟨(forcePasswordChange st email otp).2.auth, alt⟩) := by
  have hcond : ¬ (email = "" ∨ otp = "") := by
    rintro (h | h)
    exacts [he h, ho h]
  have hmem : u ∈ st.auth.users := List.mem_of_find?_eq_some hu
  have hsome : (authGetUser st.auth u.uid).isSome := by
    unfold authGetUser
    rw [List.find?_isSome]
    exact ⟨u, hmem, by simp⟩
  unfold forcePasswordChange
  simp only [if_neg hcond, hu]
  refine ⟨trivial, trivial, ?_, fun alt => trivial⟩
  exact authGetUser_updatePassword _ _ _ hsome

/-- Witness for C2 at a concrete account and store. -/
theorem c2_witness :
    ("a@x.com" : String) ≠ "" ∧ ("secret" : String) ≠ "" ∧
    authGetUserByEmail (⟨[⟨"u1", "a@x.com", "old", true, false⟩], 1⟩ :
        AuthState) "a@x.com" = some ⟨"u1", "a@x.com", "old", true, false⟩ ∧
    ((forcePasswordChange ⟨⟨[⟨"u1", "a@x.com", "old", true, false⟩], 1⟩,
        [("k", ⟨"999999", 0, 1⟩)]⟩ "a@x.com" "secret").1 = .ok ∧
      (forcePasswordChange ⟨⟨[⟨"u1", "a@x.com", "old", true, false⟩], 1⟩,
        [("k", ⟨"999999", 0, 1⟩)]⟩ "a@x.com" "secret").2.otps =
        (⟨⟨[⟨"u1", "a@x.com", "old", true, false⟩], 1⟩,
          [("k", ⟨"999999", 0, 1⟩)]⟩ : ServerState).otps ∧
      (authGetUser (forcePasswordChange ⟨⟨[⟨"u1", "a@x.com", "old", true,
          false⟩], 1⟩, [("k", ⟨"999999", 0, 1⟩)]⟩ "a@x.com"
          "secret").2.auth "u1").map (·.password) = some "secret" ∧
      ∀ alt : List (String × OtpRec),
        forcePasswordChange ⟨⟨[⟨"u1", "a@x.com", "old", true, false⟩], 1⟩,
            alt⟩ "a@x.com" "secret" =
          ((forcePasswordChange ⟨⟨[⟨"u1", "a@x.com", "old", true, false⟩],
              1⟩, [("k", ⟨"999999", 0, 1⟩)]⟩ "a@x.com" "secret").1,
            ⟨(forcePasswordChange ⟨⟨[⟨"u1", "a@x.com", "old", true, false⟩],
              1⟩, [("k", ⟨"999999", 0, 1⟩)]⟩ "a@x.com" "secret").2.auth,
              alt⟩)) :=
  ⟨by decide, by decide, by decide,
    c2_theorem ⟨⟨[⟨"u1", "a@x.com", "old", true, false⟩], 1⟩,
      [("k", ⟨"999999", 0, 1⟩)]⟩ "a@x.com" "secret"
      ⟨"u1", "a@x.com", "old", true, false⟩ (by decide) (by decide)
      (by decide)⟩

theorem sendOtp_otps (st : ServerState) (email : String) (k now : Nat)
    (m : Bool) (he : email ≠ "") :
    (sendOtp st email k now m).2.otps =
      fsSet st.otps (encodeURIComponent email)
        ⟨genOtp k, now, now + 5 * 60 * 1000⟩ := by
  unfold sendOtp
  rw [if_neg he]
  cases m <;> rfl

/-- C4: issuing a passcode twice for the same email overwrites the stored
record (upsert, not append): after the second issuance the stored document
holds only the second code, and verifying the (different) first code while
the second is unexpired answers "Invalid OTP" (MISMATCH). -/
theorem c4_theorem (st : ServerState) (email : String)
    (k1 k2 t1 t2 t3 : Nat) (m1 m2 : Bool) (he : email ≠ "")
    (hne : genOtp k1 ≠ genOtp k2) (ht : t3 ≤ t2 + 300000) :
    (verifyOtp ((sendOtp (sendOtp st email k1 t1 m1).2 email k2 t2 m2).2).otps
        email (genOtp k1) t3).1 = .mismatch ∧
    fsGet ((sendOtp (sendOtp st email k1 t1 m1).2 email k2 t2 m2).2).otps
        (encodeURIComponent email) =
      some ⟨genOtp k2, t2, t2 + 300000⟩ := by
  have hgb := sendOtp_otps (sendOtp st email k1 t1 m1).2 email k2 t2 m2 he
  have hget : fsGet
      ((sendOtp (sendOtp st email k1 t1 m1).2 email k2 t2 m2).2).otps
      (encodeURIComponent email) =
      some ⟨genOtp k2, t2, t2 + 5 * 60 * 1000⟩ := by
    rw [hgb, fsGet_fsSet_self]
  have hcond : ¬ (email = "" ∨ genOtp k1 = "") := by
    rintro (h | h)
    exacts [he h, genOtp_ne_empty k1 h]
  have hexp : ¬ ((⟨genOtp k2, t2, t2 + 5 * 60 * 1000⟩ : OtpRec).expiresAt ≠ 0
      ∧ t3 > (⟨genOtp k2, t2, t2 + 5 * 60 * 1000⟩ : OtpRec).expiresAt) := by
    simp only
    omega
  have hmm : ¬ ((⟨genOtp k2, t2, t2 + 5 * 60 * 1000⟩ : OtpRec).otp =
      genOtp k1) := by
    simp only
    exact fun h => hne h.symm
  constructor
  · simp only [verifyOtp, if_neg hcond, hget, if_neg hexp, if_neg hmm]
  · rw [hget]

/-- Witness for C4: concrete double issuance then a mismatch on the first
code. -/
theorem c4_witness :
    ("a@x.com" : String) ≠ "" ∧ genOtp 0 ≠ genOtp 1 ∧ (5 : Nat) ≤ 3 + 300000 ∧
    ((verifyOtp ((sendOtp (sendOtp ⟨⟨[], 0⟩, []⟩ "a@x.com" 0 2 true).2
          "a@x.com" 1 3 true).2).otps "a@x.com" (genOtp 0) 5).1 = .mismatch ∧
      fsGet ((sendOtp (sendOtp ⟨⟨[], 0⟩, []⟩ "a@x.com" 0 2 true).2
          "a@x.com" 1 3 true).2).otps (encodeURIComponent "a@x.com") =
        some ⟨genOtp 1, 3, 3 + 300000⟩) :=
  ⟨by decide, by decide, by decide,
    c4_theorem ⟨⟨[], 0⟩, []⟩ "a@x.com" 0 1 2 3 5 true true (by decide)
      (by decide) (by decide)⟩

/-- Two characters that are equal, or are both ASCII letters differing only
in case. -/
def charCaseEq (c d : Char) : Bool :=
  c == d || (c.isAlpha && d.isAlpha && (c.toLower == d.toLower))

/-- Two character lists that agree pointwise up to ASCII letter case. -/
def caseVariantEq : List Char → List Char → Bool
  | [], [] => true
  | c :: cs, d :: ds => charCaseEq c d && caseVariantEq cs ds
  | _, _ => false

theorem encChar_alpha (c : Char) (h : c.isAlpha) : encChar c = [c] := by
  unfold encChar
  rw [if_pos]
  simp [uriUnreserved, Char.isAlphanum, h]

theorem encFlatten_case_ne : ∀ (l1 l2 : List Char),
    caseVariantEq l1 l2 = true → l1 ≠ l2 →
    (l1.map encChar).flatten ≠ (l2.map encChar).flatten := by
  intro l1
  induction l1 with
  | nil =>
    intro l2 h hne
    cases l2 with
    | nil => exact absurd rfl hne
    | cons d ds => simp [caseVariantEq] at h
  | cons c cs ih =>
    intro l2 h hne
    cases l2 with
    | nil => simp [caseVariantEq] at h
    | cons d ds =>
      have h' : charCaseEq c d = true ∧ caseVariantEq cs ds = true := by
        simpa [caseVariantEq, Bool.and_eq_true] using h
      obtain ⟨hcd, hcs⟩ := h'
      by_cases hc : c = d
      · subst hc
        have htl : cs ≠ ds := by
          intro hh
          exact hne (by rw [hh])
        intro hh
        simp only [List.map_cons, List.flatten_cons] at hh
        exact ih ds hcs htl (List.append_cancel_left hh)
      · have halpha : c.isAlpha ∧ d.isAlpha := by
          unfold charCaseEq at hcd
          have hcd' : (c == d) = false := by simpa using hc
          simp only [hcd', Bool.false_or, Bool.and_eq_true] at hcd
          exact ⟨hcd.1.1, hcd.1.2⟩
        intro hh
        simp only [List.map_cons, List.flatten_cons,
          encChar_alpha c halpha.1, encChar_alpha d halpha.2,
          List.cons_append] at hh
        exact hc (by injection hh)

theorem encodeURIComponent_case_ne (e e' : String) (hne : e ≠ e')
    (hcv : caseVariantEq e.data e'.data = true) :
    encodeURIComponent e ≠ encodeURIComponent e' := by
  unfold encodeURIComponent
  intro h
  have hd : (e.data.map encChar).flatten = (e'.data.map encChar).flatten := by
    simpa using congrArg String.data h
  have hdne : e.data ≠ e'.data := by
    intro hh
    apply hne
    cases e
    cases e'
    exact congrArg String.mk hh
  exact encFlatten_case_ne _ _ hcv hdne hd

theorem char_toNat_lt (c : Char) : c.toNat < 1114112 := by
  rcases c.valid with h | h
  · exact Nat.lt_trans h (by norm_num)
  · exact h.2

theorem char_eq_of_toNat_eq {c d : Char} (h : c.toNat = d.toNat) : c = d := by
  rw [← Char.ofNat_toNat c, ← Char.ofNat_toNat d, h]

theorem char_toNat_ofNat (n : Nat) (h : n.isValidChar) :
    (Char.ofNat n).toNat = n := by
  rw [Char.ofNat, dif_pos h]
  rfl

theorem utf8Bytes_ne_nil (n : Nat) : utf8Bytes n ≠ [] := by
  unfold utf8Bytes
  split_ifs <;> simp

theorem utf8Bytes_lt (n : Nat) (hn : n < 1114112) :
    ∀ b ∈ utf8Bytes n, b < 256 := by
  unfold utf8Bytes
  split_ifs with h1 h2 h3 <;> intro b hb <;> simp at hb <;> omega

theorem utf8Bytes_inj (m n : Nat) (hm : m < 1114112) (hn : n < 1114112)
    (h : utf8Bytes m = utf8Bytes n) : m = n := by
  unfold utf8Bytes at h
  split_ifs at h <;> simp_all <;> omega

theorem utf8Bytes_length_of_head (m n : Nat) (hm : m < 1114112)
    (hn : n < 1114112) (h : (utf8Bytes m).head? = (utf8Bytes n).head?) :
    (utf8Bytes m).length = (utf8Bytes n).length := by
  unfold utf8Bytes at h ⊢
  split_ifs at h ⊢ <;> simp_all <;> omega

/-- UTF-8 encoding of a character list is injective: the first byte of each
character's encoding determines its length, so equal concatenations align
character by character. -/
theorem utf8Flatten_inj : ∀ (l1 l2 : List Char),
    (l1.map (fun c => utf8Bytes c.toNat)).flatten =
      (l2.map (fun c => utf8Bytes c.toNat)).flatten → l1 = l2 := by
  intro l1
  induction l1 with
  | nil =>
    intro l2 h
    cases l2 with
    | nil => rfl
    | cons d ds =>
      exfalso
      simp only [List.map_nil, List.flatten_nil, List.map_cons,
        List.flatten_cons] at h
      obtain ⟨y, ys, hy⟩ := List.exists_cons_of_ne_nil (utf8Bytes_ne_nil d.toNat)
      rw [hy] at h
      exact absurd h.symm (by simp)
  | cons c cs ih =>
    intro l2 h
    cases l2 with
    | nil =>
      exfalso
      simp only [List.map_nil, List.flatten_nil, List.map_cons,
        List.flatten_cons] at h
      obtain ⟨x, xs, hx⟩ := List.exists_cons_of_ne_nil (utf8Bytes_ne_nil c.toNat)
      rw [hx] at h
      exact absurd h (by simp)
    | cons d ds =>
      simp only [List.map_cons, List.flatten_cons] at h
      obtain ⟨x, xs, hx⟩ := List.exists_cons_of_ne_nil (utf8Bytes_ne_nil c.toNat)
      obtain ⟨y, ys, hy⟩ := List.exists_cons_of_ne_nil (utf8Bytes_ne_nil d.toNat)
      have hhead : (utf8Bytes c.toNat).head? = (utf8Bytes d.toNat).head? := by
        have h2 := h
        rw [hx, hy] at h2
        simp only [List.cons_append] at h2
        rw [hx, hy]
        simp [(List.cons.injEq _ _ _ _ ▸ h2).1]
      have hlen := utf8Bytes_length_of_head c.toNat d.toNat
        (char_toNat_lt c) (char_toNat_lt d) hhead
      obtain ⟨hu, hrest⟩ := List.append_inj h hlen
      have hcd : c = d :=
        char_eq_of_toNat_eq (utf8Bytes_inj c.toNat d.toNat
          (char_toNat_lt c) (char_toNat_lt d) hu)
      rw [hcd, ih ds hrest]

/-- Value of a hexadecimal digit character. -/
def hexVal (c : Char) : Nat :=
  if c.toNat ≤ 57 then c.toNat - 48 else c.toNat - 55

theorem hexVal_hexDigit (n : Nat) (h : n < 16) : hexVal (hexDigit n) = n := by
  unfold hexVal hexDigit
  by_cases h10 : n < 10
  · rw [if_pos h10, char_toNat_ofNat (48 + n) (Or.inl (by omega)),
      if_pos (by omega)]
    omega
  · rw [if_neg h10, char_toNat_ofNat (55 + n) (Or.inl (by omega)),
      if_neg (by omega)]
    omega

/-- Left-to-right decoder of percent-encoded output back to its byte
stream: a `%` consumes a two-digit hex byte, any other character stands for
its own code point. -/
def wireBytes : List Char → Option (List Nat)
  | [] => some []
  | c :: t =>
    if c = '%' then
      match t with
      | h1 :: h2 :: t2 =>
        match wireBytes t2 with
        | some bs => some ((hexVal h1 * 16 + hexVal h2) :: bs)
        | none => none
      | _ => none
    else
      match wireBytes t with
      | some bs => some (c.toNat :: bs)
      | none => none

theorem wireBytes_raw (c : Char) (t : List Char) (h : ¬ c = '%') :
    wireBytes (c :: t) =
      match wireBytes t with
      | some bs => some (c.toNat :: bs)
      | none => none := by
  cases t with
  | nil =>
    rw [wireBytes.eq_def]
    simp [h]
  | cons h1 t1 =>
    cases t1 with
    | nil =>
      rw [wireBytes.eq_def]
      simp [h]
    | cons h2 t2 =>
      rw [wireBytes.eq_2, if_neg h]

theorem wireBytes_pct (b : Nat) (t : List Char) (hb : b < 256) :
    wireBytes (pctByte b ++ t) =
      match wireBytes t with
      | some bs => some (b :: bs)
      | none => none := by
  simp only [pctByte, List.cons_append, List.nil_append]
  rw [wireBytes.eq_2, if_pos rfl]
  rw [hexVal_hexDigit (b / 16) (by omega), hexVal_hexDigit (b % 16) (by omega)]
  have hb16 : b / 16 * 16 + b % 16 = b := by omega
  rw [hb16]

theorem wireBytes_pcts (bs : List Nat) (t : List Char)
    (hb : ∀ b ∈ bs, b < 256) :
    wireBytes ((bs.map pctByte).flatten ++ t) =
      match wireBytes t with
      | some l => some (bs ++ l)
      | none => none := by
  induction bs with
  | nil =>
    simp only [List.map_nil, List.flatten_nil, List.nil_append]
    cases h : wireBytes t <;> simp [h]
  | cons b bs ih =>
    simp only [List.map_cons, List.flatten_cons, List.append_assoc]
    rw [wireBytes_pct b _ (hb b (by simp))]
    rw [ih (fun x hx => hb x (by simp [hx]))]
    cases wireBytes t <;> rfl

theorem uint32_le_toNat (a : UInt32) (m : Nat) (hm : m < 4294967296)
    (h : a ≤ UInt32.ofNat m) : a.toNat ≤ m :=
  UInt32.toNat_le_of_le hm h

theorem uriUnreserved_toNat_lt (c : Char) (h : uriUnreserved c = true) :
    c.toNat < 128 := by
  unfold uriUnreserved at h
  simp only [Bool.or_eq_true, Char.isAlphanum, Char.isAlpha, Char.isUpper,
    Char.isLower, Char.isDigit, Bool.and_eq_true, decide_eq_true_eq] at h
  casesm* _ ∨ _
  all_goals rename_i h
  all_goals first
    | exact Nat.lt_of_le_of_lt (uint32_le_toNat c.val 90 (by norm_num) h.2)
        (by norm_num)
    | exact Nat.lt_of_le_of_lt (uint32_le_toNat c.val 122 (by norm_num) h.2)
        (by norm_num)
    | exact Nat.lt_of_le_of_lt (uint32_le_toNat c.val 57 (by norm_num) h.2)
        (by norm_num)
    | (subst h
       decide)

theorem wireBytes_encChar (c : Char) (t : List Char) :
    wireBytes (encChar c ++ t) =
      match wireBytes t with
      | some bs => some (utf8Bytes c.toNat ++ bs)
      | none => none := by
  unfold encChar
  by_cases hu : uriUnreserved c
  · rw [if_pos hu]
    have hne : ¬ c = '%' := by
      intro hh
      rw [hh] at hu
      exact absurd hu (by decide)
    have hlt : c.toNat < 128 := uriUnreserved_toNat_lt c hu
    simp only [List.singleton_append]
    rw [wireBytes_raw c t hne]
    have hb : utf8Bytes c.toNat = [c.toNat] := by
      unfold utf8Bytes
      rw [if_pos (by omega)]
    rw [hb]
    cases wireBytes t <;> rfl
  · rw [if_neg hu]
    exact wireBytes_pcts (utf8Bytes c.toNat) t
      (utf8Bytes_lt c.toNat (char_toNat_lt c))

theorem wireBytes_enc (l : List Char) :
    wireBytes ((l.map encChar).flatten) =
      some ((l.map (fun c => utf8Bytes c.toNat)).flatten) := by
  induction l with
  | nil => rfl
  | cons c cs ih =>
    simp only [List.map_cons, List.flatten_cons]
    rw [wireBytes_encChar c _, ih]

/-- `encodeURIComponent` is injective: its output decodes back to the UTF-8
byte stream of the input, and UTF-8 encoding is itself injective. -/
theorem encodeURIComponent_inj (e e' : String)
    (h : encodeURIComponent e = encodeURIComponent e') : e = e' := by
  unfold encodeURIComponent at h
  have hd : (e.data.map encChar).flatten = (e'.data.map encChar).flatten := by
    simpa using congrArg String.data h
  have hw := wireBytes_enc e.data
  rw [hd, wireBytes_enc e'.data] at hw
  have hu := Option.some.inj hw
  have := utf8Flatten_inj e'.data e.data hu
  cases e
  cases e'
  exact congrArg String.mk this.symm

/-- Two strings that differ only in ASCII letter case or in surrounding
whitespace: once the surrounding whitespace is stripped, the remaining
cores agree pointwise up to letter case (interior characters, including any
interior whitespace, must match). -/
def caseOrWsVariant (e e' : String) : Bool :=
  caseVariantEq (trimData e.data) (trimData e'.data)

/-- C10: `/send-otp` and `/verify-otp` key the `otps` collection by
`encodeURIComponent` of the email exactly as supplied (no lowercasing, no
trimming): after issuing for `e`, the record sits under
`encodeURIComponent e`, and a verify whose email `e'` differs from `e` only
in ASCII letter case or in surrounding whitespace looks up a different key
and (when nothing was ever stored under that key) answers "No OTP found for
this email".  The key difference follows from the injectivity of
`encodeURIComponent`, so it holds for any distinct verify email; the
variant hypothesis pins the claim's scenario. -/
theorem c10_theorem (st : ServerState) (e e' code : String) (k now now' : Nat)
    (m : Bool) (he : e ≠ "") (he' : e' ≠ "") (hcode : code ≠ "")
    (hne : e ≠ e') (hcv : caseOrWsVariant e e' = true)
    (hmiss : fsGet st.otps (encodeURIComponent e') = none) :
    fsGet ((sendOtp st e k now m).2.otps) (encodeURIComponent e) =
      some ⟨genOtp k, now, now + 300000⟩ ∧
    (verifyOtp ((sendOtp st e k now m).2.otps) e' code now').1 = .notFound := by
  have hotps := sendOtp_otps st e k now m he
  have hkne : encodeURIComponent e' ≠ encodeURIComponent e := fun hh =>
    hne (encodeURIComponent_inj e' e hh).symm
  have hcond : ¬ (e' = "" ∨ code = "") := by
    rintro (h | h)
    exacts [he' h, hcode h]
  constructor
  · rw [hotps, fsGet_fsSet_self]
  · simp only [verifyOtp, if_neg hcond, hotps,
      fsGet_fsSet_ne _ _ _ _ hkne, hmiss]

/-- Witness for C10, exercising both halves of the claim's variant: issuing
for `"A@x.com"` then verifying with the case variant `"a@x.com"` misses the
record, and issuing for `"A@x.com"` then verifying with the
surrounding-whitespace variant `" A@x.com "` also misses the record. -/
theorem c10_witness :
    (("A@x.com" : String) ≠ "" ∧ ("a@x.com" : String) ≠ "" ∧
      ("123456" : String) ≠ "" ∧ ("A@x.com" : String) ≠ "a@x.com" ∧
      caseOrWsVariant "A@x.com" "a@x.com" = true ∧
      fsGet ([] : List (String × OtpRec)) (encodeURIComponent "a@x.com") =
        none ∧
      (fsGet ((sendOtp ⟨⟨[], 0⟩, []⟩ "A@x.com" 0 10 true).2.otps)
          (encodeURIComponent "A@x.com") = some ⟨genOtp 0, 10, 10 + 300000⟩ ∧
        (verifyOtp ((sendOtp ⟨⟨[], 0⟩, []⟩ "A@x.com" 0 10 true).2.otps)
          "a@x.com" "123456" 20).1 = .notFound)) ∧
    ((" A@x.com " : String) ≠ "" ∧ ("A@x.com" : String) ≠ " A@x.com " ∧
      caseOrWsVariant "A@x.com" " A@x.com " = true ∧
      fsGet ([] : List (String × OtpRec)) (encodeURIComponent " A@x.com ") =
        none ∧
      (fsGet ((sendOtp ⟨⟨[], 0⟩, []⟩ "A@x.com" 0 10 true).2.otps)
          (encodeURIComponent "A@x.com") = some ⟨genOtp 0, 10, 10 + 300000⟩ ∧
        (verifyOtp ((sendOtp ⟨⟨[], 0⟩, []⟩ "A@x.com" 0 10 true).2.otps)
          " A@x.com " "123456" 20).1 = .notFound)) :=
  ⟨⟨by decide, by decide, by decide, by decide, by decide, by decide,
    c10_theorem ⟨⟨[], 0⟩, []⟩ "A@x.com" "a@x.com" "123456" 0 10 20 true
      (by decide) (by decide) (by decide) (by decide) (by decide)
      (by decide)⟩,
  ⟨by decide, by decide, by decide, by decide,
    c10_theorem ⟨⟨[], 0⟩, []⟩ "A@x.com" " A@x.com " "123456" 0 10 20 true
      (by decide) (by decide) (by decide) (by decide) (by decide)
      (by decide)⟩⟩

theorem filter_email_update (us : List AuthUser) (uid p email : String)
    (ev dis : Bool) :
    ((us.map (fun u => if u.uid == uid then
        { u with password := p, emailVerified := ev, disabled := dis }
      else u)).filter (fun u => u.email == email)).length =
      (us.filter (fun u => u.email == email)).length := by
  induction us with
  | nil => rfl
  | cons u us ih =>
    rw [List.map_cons]
    by_cases huid : u.uid == uid
    · rw [if_pos huid]
      by_cases hem : u.email == email
      · have h2 :
            (({ u with
                  password := p, emailVerified := ev, disabled := dis } :
              AuthUser).email == email) = true := by
          simpa using hem
        simp only [List.filter_cons]
        rw [if_pos h2, if_pos hem]
        simp only [List.length_cons]
        omega
      · have h2 : ¬ (({ u with
              password := p, emailVerified := ev, disabled := dis } :
            AuthUser).email == email) = true := by
          simpa using hem
        simp only [List.filter_cons]
        rw [if_neg h2, if_neg hem]
        omega
    · rw [if_neg huid]
      simp only [List.filter_cons]
      by_cases hem : u.email == email
      · rw [if_pos hem, if_pos hem]
        simp only [List.length_cons]
        omega
      · rw [if_neg hem, if_neg hem]
        omega

/-- C8: ensuring an identity twice for the same (fresh) email never creates
a duplicate: the first call creates and returns a fresh uid with
`created = true`, the second recovers the same uid with `created = false`,
the identity count stays the same, and exactly one identity carries the
email after each call. -/
theorem c8_theorem (st : IdState) (email p1 p2 role1 role2 : String)
    (hfresh : authGetUserByEmail st.auth email = none) :
    ∃ (uid : String) (st1 st2 : IdState),
      ensureUser st email p1 role1 = .ok (⟨true, uid⟩, st1) ∧
      ensureUser st1 email p2 role2 = .ok (⟨false, uid⟩, st2) ∧
      st2.auth.users.length = st1.auth.users.length ∧
      (st1.auth.users.filter (fun u => u.email == email)).length = 1 ∧
      (st2.auth.users.filter (fun u => u.email == email)).length = 1 := by
  have hfind : st.auth.users.find? (fun u => u.email == email) = none := hfresh
  have hforall : ∀ u ∈ st.auth.users, ¬ (u.email == email) = true :=
    List.find?_eq_none.mp hfind
  have hany : ¬ (st.auth.users.any (fun u => u.email == email) = true) := by
    rw [Bool.not_eq_true, List.any_eq_false]
    exact hforall
  set nuid := "u" ++ natToDec st.auth.nextUid with hnuid
  set nu : AuthUser := ⟨nuid, email, p1, true, false⟩ with hnu
  set st1 : IdState :=
    ⟨⟨st.auth.users ++ [nu], st.auth.nextUid + 1⟩,
      fsSet st.users nuid ⟨email, role1, true⟩⟩ with hst1
  have e1 : ensureUser st email p1 role1 = .ok (⟨true, nuid⟩, st1) := by
    unfold ensureUser authCreateUser
    rw [if_neg hany]
  have hany1 : (st1.auth.users.any (fun u => u.email == email)) = true := by
    rw [hst1]
    simp [List.any_append, nu]
  have hfind1 : st1.auth.users.find? (fun u => u.email == email) = some nu := by
    rw [hst1]
    simp only [List.find?_append, hfind]
    simp [nu, List.find?]
  set st2 : IdState :=
    ⟨authUpdateUser st1.auth nuid p2 true false,
      fsSet st1.users nuid ⟨email, role2, true⟩⟩ with hst2
  have hfind1' : authGetUserByEmail st1.auth email = some nu := hfind1
  have e2 : ensureUser st1 email p2 role2 = .ok (⟨false, nuid⟩, st2) := by
    unfold ensureUser authCreateUser
    rw [if_pos hany1]
    show (match authGetUserByEmail st1.auth email with
      | some existing =>
        (Except.ok (⟨false, existing.uid⟩,
          (⟨authUpdateUser st1.auth existing.uid p2 true false,
            fsSet st1.users existing.uid ⟨email, role2, true⟩⟩ : IdState)) :
          Except String (EnsureResult × IdState))
      | none => Except.error "auth/user-not-found") =
      Except.ok (⟨false, nuid⟩, st2)
    rw [hfind1']
  refine ⟨nuid, st1, st2, e1, e2, ?_, ?_, ?_⟩
  · rw [hst2]
    simp [authUpdateUser]
  · rw [hst1]
    simp only [List.filter_append]
    rw [List.filter_eq_nil_iff.mpr hforall]
    simp [nu]
  · rw [hst2]
    simp only [authUpdateUser]
    rw [filter_email_update]
    simp only [List.filter_append]
    rw [List.filter_eq_nil_iff.mpr hforall]
    simp [nu]

/-- Witness for C8 on an empty identity provider. -/
theorem c8_witness :
    authGetUserByEmail (⟨[], 0⟩ : AuthState) "a@x.com" = none ∧
    ∃ (uid : String) (st1 st2 : IdState),
      ensureUser ⟨⟨[], 0⟩, []⟩ "a@x.com" "p1" "admin" =
        .ok (⟨true, uid⟩, st1) ∧
      ensureUser st1 "a@x.com" "p2" "employee" = .ok (⟨false, uid⟩, st2) ∧
      st2.auth.users.length = st1.auth.users.length ∧
      (st1.auth.users.filter (fun u => u.email == "a@x.com")).length = 1 ∧
      (st2.auth.users.filter (fun u => u.email == "a@x.com")).length = 1 :=
  ⟨by decide, c8_theorem ⟨⟨[], 0⟩, []⟩ "a@x.com" "p1" "p2" "admin" "employee"
    (by decide)⟩

/-- C1: evaluation of `/admin/archive-admin` at a state with one matching
inventory record.  Archiving (`disable = true`) reports success but leaves
the matching `vaccineStock` document untouched — the cascade's update object
reads the undefined name `requesterEmail`, the resulting `ReferenceError`
aborts the batch before commit, and `catch (vsError)` swallows it — while
unarchiving (`disable = false`) does commit the batch and clears the archive
state.  This contradicts the claim (and matches its spec-noted latent bug):
no record ever gets `isArchived = true` from this endpoint. -/
theorem c1_code_bug :
    (archiveAdmin ⟨⟨[⟨"u1", "a@x.com", "pw", true, false⟩], 1⟩,
        [("u1", ⟨some "a@x.com", some true⟩)],
        [("v1", ⟨"a@x.com", false, none, none⟩)]⟩ "u1" true).1 =
      ArchiveResult.ok ∧
    fsGet (archiveAdmin ⟨⟨[⟨"u1", "a@x.com", "pw", true, false⟩], 1⟩,
        [("u1", ⟨some "a@x.com", some true⟩)],
        [("v1", ⟨"a@x.com", false, none, none⟩)]⟩ "u1" true).2.vaccineStock
        "v1" = some ⟨"a@x.com", false, none, none⟩ ∧
    runCascade [("v1", ⟨"a@x.com", false, none, none⟩)] "a@x.com" true =
      .error "ReferenceError: requesterEmail is not defined" ∧
    fsGet (archiveAdmin ⟨⟨[⟨"u1", "a@x.com", "pw", true, false⟩], 1⟩,
        [("u1", ⟨some "a@x.com", some false⟩)],
        [("v1", ⟨"a@x.com", true, some 5, some "b@x.com"⟩)]⟩ "u1"
        false).2.vaccineStock "v1" = some ⟨"a@x.com", false, none, none⟩ := by
  refine ⟨rfl, ?_, rfl, ?_⟩ <;> decide

/-! ## Token-codec lemmas -/

theorem string_eta (s : String) : String.mk s.data = s := rfl

theorem splitOnChar_cons (sep c : Char) (cs : List Char) :
    splitOnChar sep (c :: cs) =
      if c = sep then [] :: splitOnChar sep cs
      else
        match splitOnChar sep cs with
        | [] => [[c]]
        | y :: ys => (c :: y) :: ys := rfl

theorem splitOnChar_no_sep (sep : Char) :
    ∀ (l : List Char), sep ∉ l → splitOnChar sep l = [l] := by
  intro l
  induction l with
  | nil => intro _; rfl
  | cons c cs ih =>
    intro h
    have hc : ¬ c = sep := fun hh => h (hh ▸ List.mem_cons_self c cs)
    have hcs : sep ∉ cs := fun hh => h (List.mem_cons_of_mem c hh)
    rw [splitOnChar_cons, if_neg hc, ih hcs]

theorem splitOnChar_sandwich (sep : Char) :
    ∀ (a b : List Char), sep ∉ a →
      splitOnChar sep (a ++ sep :: b) = a :: splitOnChar sep b := by
  intro a
  induction a with
  | nil =>
    intro b _
    simp only [List.nil_append]
    rw [splitOnChar_cons, if_pos rfl]
  | cons c cs ih =>
    intro b h
    have hc : ¬ c = sep := fun hh => h (hh ▸ List.mem_cons_self c cs)
    have hcs : sep ∉ cs := fun hh => h (List.mem_cons_of_mem c hh)
    simp only [List.cons_append]
    rw [splitOnChar_cons, if_neg hc, ih b hcs]

theorem expNumber_mkBody (payload : JObj) (iat exp : Nat) :
    expNumber (mkBody payload iat exp) = some exp := by
  unfold expNumber mkBody lookupKey setKey
  rw [fsGet_fsSet_self]

theorem lookupKey_mkBody_ne (payload : JObj) (iat exp : Nat) (k : String)
    (h1 : k ≠ "iat") (h2 : k ≠ "exp") :
    lookupKey (mkBody payload iat exp) k = lookupKey payload k := by
  unfold mkBody lookupKey setKey
  rw [fsGet_fsSet_ne _ _ _ _ h2, fsGet_fsSet_ne _ _ _ _ h1]

theorem token_data (a b : String) :
    (a ++ "." ++ b).data = a.data ++ '.' :: b.data := by
  simp [String.data_append]

/-- C6 (amended): validating a freshly issued email-change token with the
issuing secret succeeds before expiry, but returns the payload merged with
the `iat` and `exp` stamps (the parsed body `{...payload, iat, exp}`), not
the bare payload; every payload field other than `iat` / `exp` is returned
unchanged.  The base64url / JSON round-trip facts about this body, and the
absence of `"."` in the encoded body and hex signature, are the library
properties the code relies on. -/
theorem c6_theorem (pr : Prims) (payload : JObj) (secret body : String)
    (ttl now now' : Nat)
    (hbody : body = pr.jsonStringify (mkBody payload now (now + ttl)))
    (hb : pr.b64decode (pr.b64encode body) = some body)
    (hp : pr.jsonParse body = some (mkBody payload now (now + ttl)))
    (he : '.' ∉ (pr.b64encode body).data)
    (hs : '.' ∉ (pr.hmacHex secret body).data)
    (hnow : now' ≤ now + ttl) :
    verifyTok pr (createTok pr payload secret ttl now) secret now' =
      some (mkBody payload now (now + ttl)) ∧
    ∀ k, k ≠ "iat" → k ≠ "exp" →
      lookupKey (mkBody payload now (now + ttl)) k = lookupKey payload k := by
  refine ⟨?_, fun k h1 h2 => lookupKey_mkBody_ne payload now (now + ttl) k h1 h2⟩
  unfold createTok verifyTok
  rw [← hbody]
  have hdata := token_data (pr.b64encode body) (pr.hmacHex secret body)
  rw [hdata]
  have hcont : ((pr.b64encode body).data ++
      '.' :: (pr.hmacHex secret body).data).contains '.' = true := by
    simp
  rw [if_pos hcont, splitOnChar_sandwich '.' _ _ he,
    splitOnChar_no_sep '.' _ hs]
  simp only [List.getD_cons_zero, List.getD_cons_succ, string_eta, hb]
  simp only [if_true]
  simp only [hp, expNumber_mkBody]
  rw [if_neg (by omega)]

/-- A concrete instantiation of the codec's library primitives used to
evaluate the codec on the payload `{uid: "u1"}`: the encode/decode pair
round-trips, the serializer/parser pair round-trips on the token body, and
no `"."` appears in encodings or digests. -/
def c6pr : Prims where
  hmacHex := fun _ _ => "SIG"
  b64encode := fun s => "E" ++ s
  b64decode := fun s =>
    match s.data with
    | 'E' :: rest => some (String.mk rest)
    | _ => none
  jsonStringify := fun _ => "B"
  jsonParse := fun s =>
    if s = "B" then
      some [("uid", .jstr "u1"), ("iat", .jnum 0), ("exp", .jnum 1000)]
    else none

/-- C6, counterexample: with a primitive instantiation on which all the
round-trip facts hold, validating a fresh token does not return exactly the
payload `{uid: "u1"}` — it returns the payload extended with the `iat` and
`exp` stamps, because `createEmailChangeToken` serialises
`{...payload, iat, exp}` and `verifyEmailChangeToken` returns the whole
parsed body. -/
theorem c6_counterexample :
    c6pr.b64decode (c6pr.b64encode "B") = some "B" ∧
    c6pr.jsonParse "B" = some (mkBody [("uid", JVal.jstr "u1")] 0 1000) ∧
    verifyTok c6pr (createTok c6pr [("uid", JVal.jstr "u1")] "s" 1000 0)
        "s" 500 ≠ some [("uid", JVal.jstr "u1")] ∧
    verifyTok c6pr (createTok c6pr [("uid", JVal.jstr "u1")] "s" 1000 0)
        "s" 500 =
      some [("uid", JVal.jstr "u1"), ("iat", JVal.jnum 0),
        ("exp", JVal.jnum 1000)] := by
  refine ⟨rfl, by decide, by decide, by decide⟩

/-- Witness for C6 (amended) on `c6pr` and the payload `{uid: "u1"}`. -/
theorem c6_witness :
    verifyTok c6pr (createTok c6pr [("uid", JVal.jstr "u1")] "s" 1000 0)
        "s" 500 = some (mkBody [("uid", JVal.jstr "u1")] 0 1000) ∧
    ∀ k, k ≠ "iat" → k ≠ "exp" →
      lookupKey (mkBody [("uid", JVal.jstr "u1")] 0 1000) k =
        lookupKey [("uid", JVal.jstr "u1")] k :=
  c6_theorem c6pr [("uid", JVal.jstr "u1")] "s" "B" 1000 0 500 (by decide)
    (by decide) (by decide) (by decide) (by decide) (by decide)

theorem verifyTok_parts (pr : Prims) (a b s : String) (n : Nat)
    (ha : '.' ∉ a.data) (hb : '.' ∉ b.data) :
    verifyTok pr (a ++ "." ++ b) s n =
      match pr.b64decode a with
      | none => none
      | some bodyJson =>
        if pr.hmacHex s bodyJson = b then
          match pr.jsonParse bodyJson with
          | none => none
          | some data =>
            match expNumber data with
            | some m => if n > m then none else some data
            | none => some data
        else none := by
  unfold verifyTok
  rw [token_data, if_pos (by simp), splitOnChar_sandwich '.' _ _ ha,
    splitOnChar_no_sep '.' _ hb]
  simp only [List.getD_cons_zero, List.getD_cons_succ, string_eta]

/-- C7 (amended): `verifyEmailChangeToken` is total and fails closed — it
returns `null` when the token has no `"."`, when the body fails to decode,
when the recomputed digest does not equal the signature component, when the
body fails to parse, and when `now` is past the numeric `exp` of the parsed
body; and validating a fresh token under a different secret returns `null`
whenever the digest recomputed under that secret differs from the token's
signature.  (The unconditional claim "any different secret always yields
null" is exactly the assumption that the keyed hash never collides across
secrets, which a fixed finite-output hash cannot satisfy for all secrets;
the code inherits collision-freedom only computationally.) -/
theorem c7_theorem (pr : Prims) :
    (∀ t s n, '.' ∉ t.data → verifyTok pr t s n = none) ∧
    (∀ a b s n, '.' ∉ a.data → '.' ∉ b.data → pr.b64decode a = none →
      verifyTok pr (a ++ "." ++ b) s n = none) ∧
    (∀ a b s n body, '.' ∉ a.data → '.' ∉ b.data →
      pr.b64decode a = some body → pr.hmacHex s body ≠ b →
      verifyTok pr (a ++ "." ++ b) s n = none) ∧
    (∀ a b s n body, '.' ∉ a.data → '.' ∉ b.data →
      pr.b64decode a = some body → pr.hmacHex s body = b →
      pr.jsonParse body = none → verifyTok pr (a ++ "." ++ b) s n = none) ∧
    (∀ a b s n body data m, '.' ∉ a.data → '.' ∉ b.data →
      pr.b64decode a = some body → pr.hmacHex s body = b →
      pr.jsonParse body = some data → expNumber data = some m → n > m →
      verifyTok pr (a ++ "." ++ b) s n = none) ∧
    (∀ payload s s2 body ttl now n,
      body = pr.jsonStringify (mkBody payload now (now + ttl)) →
      '.' ∉ (pr.b64encode body).data → '.' ∉ (pr.hmacHex s body).data →
      (∀ x, pr.b64decode (pr.b64encode body) = some x →
        pr.hmacHex s2 x ≠ pr.hmacHex s body) →
      verifyTok pr (createTok pr payload s ttl now) s2 n = none) := by
  refine ⟨?_, ?_, ?_, ?_, ?_, ?_⟩
  · intro t s n h
    unfold verifyTok
    rw [if_neg (by simpa using h)]
  · intro a b s n ha hb hd
    rw [verifyTok_parts pr a b s n ha hb, hd]
  · intro a b s n body ha hb hd hne
    rw [verifyTok_parts pr a b s n ha hb]
    simp only [hd]
    rw [if_neg hne]
  · intro a b s n body ha hb hd heq hparse
    rw [verifyTok_parts pr a b s n ha hb]
    simp only [hd, if_pos heq, hparse]
  · intro a b s n body data m ha hb hd heq hparse hexp hgt
    rw [verifyTok_parts pr a b s n ha hb]
    simp only [hd, if_pos heq, hparse, hexp]
    rw [if_pos hgt]
  · intro payload s s2 body ttl now n hbody he hs hcol
    unfold createTok
    rw [← hbody]
    rw [verifyTok_parts pr _ _ s2 n he hs]
    cases hd : pr.b64decode (pr.b64encode body) with
    | none => simp only [hd]
    | some x =>
      simp only [hd]
      rw [if_neg (hcol x hd)]

/-- A primitive instantiation whose keyed hash ignores the secret: a
collision across secrets, the situation the unconditional wrong-secret claim
rules out.  Encode/decode and serialise/parse round-trip on the body. -/
def c7cpr : Prims where
  hmacHex := fun _ m => "H" ++ m
  b64encode := fun s => "E" ++ s
  b64decode := fun s =>
    match s.data with
    | 'E' :: rest => some (String.mk rest)
    | _ => none
  jsonStringify := fun _ => "D"
  jsonParse := fun s =>
    if s = "D" then some [("iat", .jnum 0), ("exp", .jnum 5)] else none

/-- C7, counterexample: `validate(token, wrongSecret) = null` for every
different secret is not a property of the codec itself — it holds only as
far as the keyed hash separates secrets.  Under a primitive instantiation
whose digests collide across secrets (as every fixed finite-output keyed
hash must for some pair of secrets), a token issued under `"s1"` validates
under `"s2"` and returns the body instead of `null`. -/
theorem c7_counterexample :
    ("s1" : String) ≠ "s2" ∧
    c7cpr.b64decode (c7cpr.b64encode "D") = some "D" ∧
    c7cpr.jsonParse "D" = some (mkBody [] 0 5) ∧
    verifyTok c7cpr (createTok c7cpr [] "s1" 5 0) "s2" 3 =
      some [("iat", JVal.jnum 0), ("exp", JVal.jnum 5)] := by
  refine ⟨by decide, rfl, by decide, by decide⟩

/-- A primitive instantiation with a secret-dependent digest, used to
exercise every fail-closed branch of `verifyEmailChangeToken` concretely. -/
def c7wpr : Prims where
  hmacHex := fun s m => s ++ "|" ++ m
  b64encode := fun s => "E" ++ s
  b64decode := fun s =>
    match s.data with
    | 'E' :: rest => some (String.mk rest)
    | _ => none
  jsonStringify := fun _ => "D"
  jsonParse := fun s =>
    if s = "D" then some [("exp", .jnum 5)] else none

/-- Witness for C7 (amended): each fail-closed branch at a concrete input,
and a wrong-secret rejection under a secret-dependent digest. -/
theorem c7_witness :
    verifyTok c7wpr "nodot" "s" 0 = none ∧
    verifyTok c7wpr ("x" ++ "." ++ "y") "s" 0 = none ∧
    verifyTok c7wpr ("Eq" ++ "." ++ "zz") "s" 0 = none ∧
    verifyTok c7wpr ("Eq" ++ "." ++ "s|q") "s" 0 = none ∧
    verifyTok c7wpr ("ED" ++ "." ++ "s|D") "s" 9 = none ∧
    verifyTok c7wpr (createTok c7wpr [] "s1" 5 0) "s2" 3 = none := by
  have h := c7_theorem c7wpr
  refine ⟨h.1 "nodot" "s" 0 (by decide),
    h.2.1 "x" "y" "s" 0 (by decide) (by decide) rfl,
    h.2.2.1 "Eq" "zz" "s" 0 "q" (by decide) (by decide) rfl (by decide),
    h.2.2.2.1 "Eq" "s|q" "s" 0 "q" (by decide) (by decide) rfl rfl rfl,
    h.2.2.2.2.1 "ED" "s|D" "s" 9 "D" [("exp", JVal.jnum 5)] 5 (by decide)
      (by decide) rfl rfl (by decide) (by decide) (by decide),
    h.2.2.2.2.2 [] "s1" "s2" "D" 5 0 3 rfl (by decide) (by decide) ?_⟩
  intro x hx
  have h0 : c7wpr.b64decode (c7wpr.b64encode "D") = some "D" := rfl
  have hxd : ("D" : String) = x := Option.some.inj (h0.symm.trans hx)
  rw [← hxd]
  decide
